import Mathlib

/-!
Shallow embedding of the discrete-event simulation framework
(`MatthewDBrown-CSC454-Homework5-CPP.cpp`).

Real times (C++ `double`) are embedded as rationals, tie-break counters
(C++ `int`) as integers, model pointers (`SimulationModel*`) as `Option Nat`
(`none` is the null pointer), and the event-kind tag as the literal strings
the code stores ("internal", "external", "confluent").  A C++ operation whose
control flow can read `deque` storage out of bounds (undefined behaviour) is
embedded as an `Option`-valued function returning `none` on that access.

The C++ loops advance an index over the deque; they are embedded as
structural recursion on a step budget `k` that starts at (one more than) the
queue length.  Every loop either strictly advances its index, bounded by the
queue length, or returns, so the budget is never the binding exit: the
budget-exhausted branch returns the same value as the corresponding
index-guard exit.
-/

namespace DEVS

/-- `Time` holds the real time `r` and the tie-break counter `c`. -/
structure Time where
  r : ℚ
  c : ℤ
deriving DecidableEq, Repr

/-- A pending event: payload `input`, timestamp, target model pointer, and the
kind tag string exactly as the C++ classes store it. -/
structure Event where
  input : String
  time : Time
  model : Option Nat
  type : String
deriving DecidableEq, Repr

instance : Inhabited Event := ⟨⟨"", ⟨0, 0⟩, none, "internal"⟩⟩

/-- `new InternalEvent("", Time(r, c), model)`. -/
def mkInternal (r : ℚ) (c : ℤ) (model : Option Nat) : Event :=
  ⟨"", ⟨r, c⟩, model, "internal"⟩

/-- `new ExternalEvent(input, Time(r, c), model)`. -/
def mkExt (input : String) (r : ℚ) (c : ℤ) (model : Option Nat) : Event :=
  ⟨input, ⟨r, c⟩, model, "external"⟩

/-- `queue.insert(queue.begin() + n, a)` on a `std::deque`. -/
def insertAt (n : Nat) (a : Event) (l : List Event) : List Event :=
  l.take n ++ a :: l.drop n

/-- `EventQueue::scheduleConfluentEvent(existingEvent, model, r, i)`:
builds a confluent event carrying the existing event's payload and counter and
overwrites slot `i`. -/
def scheduleConfluentEvent (existing : Event) (model : Option Nat) (r : ℚ)
    (i : Nat) (q : List Event) : List Event :=
  q.set i ⟨existing.input, ⟨r, existing.time.c⟩, model, "confluent"⟩

/-- The `while (!eventHasBeenScheduled && element < (queue.size() - 1))` loop
inside `EventQueue::scheduleInternalEvent` (lines 140-161).  `i` is the outer
loop index saved for the `scheduleConfluentEvent` call, `q` the queue as it
stands when the loop is entered (possibly already extended by the
`push_back` of line 137).  When the loop guard fails the queue is returned
unchanged, so the budget-exhausted branch agrees with the guard exit. -/
def schedIntLoop (r : ℚ) (model : Option Nat) (i : Nat) (q : List Event) :
    Nat → Nat → Event → List Event
  | _, 0, _ => q
  | element, k + 1, existing =>
    if element < q.length - 1 then
      if existing.time.r = r then
        if existing.model = model then
          if existing.type = "external" then scheduleConfluentEvent existing model r i q
          else q
        else
          schedIntLoop r model i q (element + 1) k (q.getD (element + 1) default)
      else
        let prev := q.getD (element - 1) default
        let c : ℤ := if prev.time.r = r then prev.time.c + 1 else 0
        insertAt element (mkInternal r c model) q
    else q

/-- The outer `for (int i = 0; ...)` scan of
`EventQueue::scheduleInternalEvent` (lines 119-176), starting at index `i`.
Falling off the end of the queue is the post-loop `push_back`, so the
budget-exhausted branch agrees with the `i < queue.size()` exit. -/
def schedIntScan (r : ℚ) (model : Option Nat) (q : List Event) :
    Nat → Nat → List Event
  | _, 0 => q ++ [mkInternal r 0 model]
  | i, k + 1 =>
    if i < q.length then
      let e := q.getD i default
      if e.time.r = r then
        if e.model = model then
          if e.type = "external" then scheduleConfluentEvent e model r i q else q
        else
          let q1 := if i = q.length - 1 then q ++ [mkInternal r 0 model] else q
          schedIntLoop r model i q1 i q1.length e
      else if e.time.r > r then
        insertAt i (mkInternal r 0 model) q
      else
        schedIntScan r model q (i + 1) k
    else q ++ [mkInternal r 0 model]

/-- `EventQueue::scheduleInternalEvent(r, model)`. -/
def scheduleInternalEvent (r : ℚ) (model : Option Nat) (q : List Event) :
    List Event :=
  schedIntScan r model q 0 (q.length + 1)

/-- The `while (!eventHasBeenScheduled)` loop inside
`EventQueue::scheduleExternalEvent` (lines 196-223).  The loop indexes
`queue[element]` after incrementing `element` with no bound check; the
out-of-bounds access is `none`.  The index strictly increases on every
iteration that does not return, so the budget-exhausted branch is
unreachable from the wrapper's budget. -/
def schedExtLoop (input : String) (r : ℚ) (model : Option Nat) (i : Nat)
    (q : List Event) : Nat → Nat → Event → Option (List Event)
  | _, 0, _ => none
  | element, k + 1, existing =>
    if existing.type = "internal" then
      if existing.model = model then
        some (q.set i ⟨input, ⟨r, existing.time.c⟩, model, "confluent"⟩)
      else
        if element + 1 < q.length then
          schedExtLoop input r model i q (element + 1) k (q.getD (element + 1) default)
        else none
    else
      if element + 1 < q.length then
        let e2 := q.getD (element + 1) default
        if e2.time.r = r then
          schedExtLoop input r model i q (element + 1) k e2
        else
          some (insertAt (element + 1) (mkExt input r (existing.time.c + 1) model) q)
      else none

/-- The outer `for (int i = 0; ...)` scan of
`EventQueue::scheduleExternalEvent` (lines 185-238), starting at index `i`. -/
def schedExtScan (input : String) (r : ℚ) (model : Option Nat)
    (q : List Event) : Nat → Nat → Option (List Event)
  | _, 0 => some (q ++ [mkExt input r 0 model])
  | i, k + 1 =>
    if i < q.length then
      let e := q.getD i default
      if e.time.r = r then
        schedExtLoop input r model i q i (q.length + 1) e
      else if e.time.r > r then
        some (insertAt i (mkExt input r 0 model) q)
      else
        schedExtScan input r model q (i + 1) k
    else some (q ++ [mkExt input r 0 model])

/-- `EventQueue::scheduleExternalEvent(input, r, model)`. -/
def scheduleExternalEvent (input : String) (r : ℚ) (model : Option Nat)
    (q : List Event) : Option (List Event) :=
  schedExtScan input r model q 0 (q.length + 1)

/-- Adjacent ordering required by the spec: non-decreasing `r` and strictly
increasing `c` among equal-`r` neighbours. -/
def pairOrdered (a b : Event) : Bool :=
  decide (a.time.r < b.time.r) ||
    (decide (a.time.r = b.time.r) && decide (a.time.c < b.time.c))

/-- The adjacent-ordering check over a whole queue. -/
def chainOrdered : List Event → Bool
  | [] => true
  | [_] => true
  | a :: b :: t => pairOrdered a b && chainOrdered (b :: t)

/-- No two pending entries share the same (model, r) pair. -/
def pairwiseDistinctModelR : List Event → Bool
  | [] => true
  | a :: t =>
    t.all (fun b => !(a.model == b.model && decide (a.time.r = b.time.r))) &&
      pairwiseDistinctModelR t

/-- The queue invariant stated by the spec: sorted non-decreasing by `r`,
strictly increasing `c` among equal-`r` entries, and at most one pending
entry per (model, r) pair. -/
def queueWellFormed (q : List Event) : Bool :=
  chainOrdered q && pairwiseDistinctModelR q

/-- `EventQueue::getNextEvents`'s `while (nextR == r)` loop (lines 250-255):
pops `queue[0]` into `events`; `nextR` is `-1.0` once the queue is empty.
Reading `queue[0]` from an empty deque is undefined behaviour (`none`). -/
def gneLoop (r : ℚ) (q : List Event) (acc : List Event) :
    Option (List Event × List Event) :=
  match q with
  | [] => none
  | e :: rest =>
    let nextR : ℚ := match rest with
      | [] => -1
      | e2 :: _ => e2.time.r
    if nextR = r then gneLoop r rest (acc ++ [e]) else some (acc ++ [e], rest)

/-- `EventQueue::getNextEvents()` (lines 240-258): returns the extracted
imminent set together with the remaining queue. -/
def getNextEvents (q : List Event) : Option (List Event × List Event) :=
  match q with
  | [] => some ([], [])
  | e :: _ => gneLoop (e.time.r) q []

/-- `EventQueue::timeAdvance()` reads `queue[0]` unconditionally. -/
def timeAdvance (q : List Event) : Option ℚ :=
  (q.head?).map (fun e => e.time.r)

end DEVS

namespace DEVS

/-- The five-operation capability interface of `SimulationModel`
(lines 49-59). `getNextInternalEvent`'s `none` is `+infinity`. -/
structure SimulationModel (σ : Type) where
  lambda : σ → String
  deltaInt : ℚ → σ → σ
  deltaExt : String → ℚ → σ → σ
  deltaCon : String → ℚ → σ → σ
  getNextInternalEvent : σ → Option ℚ

/-- One observable call made by the simulator on a model. -/
inductive MCall where
  | lam (m : Nat)
  | dInt (m : Nat) (r : ℚ)
  | dExt (m : Nat) (input : String) (r : ℚ)
  | dCon (m : Nat) (input : String) (r : ℚ)
  | nextQ (m : Nat)
deriving DecidableEq, Repr

/-- Whether a model call is an output-function (`lambda`) invocation. -/
def MCall.isLam : MCall → Bool
  | .lam _ => true
  | _ => false

/-- `couplings[k]` on the `std::map`: a missing key default-inserts and
yields the null pointer, so the lookup defaults to `none`. -/
def lookupCoupling (cs : List (Option Nat × Option Nat)) (k : Option Nat) :
    Option Nat :=
  match cs.find? (fun p => p.1 == k) with
  | some p => p.2
  | none => none

/-- `models[model] = output` (line 333): overwrite if registered, insert
otherwise. -/
def setOutput (m : Option Nat) (out : String)
    (ms : List (Option Nat × String)) : List (Option Nat × String) :=
  if ms.any (fun p => p.1 == m) then
    ms.map (fun p => if p.1 == m then (p.1, out) else p)
  else ms ++ [(m, out)]

/-- `Simulator::clearOutputs()` (lines 307-311). -/
def clearOutputs (ms : List (Option Nat × String)) :
    List (Option Nat × String) :=
  ms.map (fun p => (p.1, ""))

/-- The output loop of `Simulator::simulate` (lines 327-335): for every
imminent event that is not external, call the model's `lambda` and record
the output in the `models` map.  Calling `lambda` through a null model
pointer is undefined behaviour (`none`).  Besides the updated map, the
sequence of `lambda` invocations is returned. -/
def lambdaPhase (σ : Type) (ops : Nat → SimulationModel σ) (states : Nat → σ) :
    List Event → List (Option Nat × String) →
      Option (List (Option Nat × String) × List MCall)
  | [], ms => some (ms, [])
  | e :: es, ms =>
    if e.type ≠ "external" then
      match e.model with
      | none => none
      | some m =>
        (lambdaPhase σ ops states es
            (setOutput (some m) ((ops m).lambda (states m)) ms)).map
          (fun p => (p.1, MCall.lam m :: p.2))
    else lambdaPhase σ ops states es ms

/-- The routing loop of `Simulator::simulate` (lines 337-350), iterating the
`models` map in its stored order: a non-empty output goes to the trace when
`couplings[model]` is the null pointer (explicitly, or by default-insert when
the model has no coupling entry), and is otherwise delivered through
`scheduleExternalEvent`. -/
def routePhase (cs : List (Option Nat × Option Nat)) (r : ℚ) :
    List (Option Nat × String) → List Event → List (ℚ × String) →
      Option (List Event × List (ℚ × String))
  | [], q, tr => some (q, tr)
  | (m, out) :: ms, q, tr =>
    if out ≠ "" then
      match lookupCoupling cs m with
      | none => routePhase cs r ms q (tr ++ [(r, out)])
      | some dest =>
        match scheduleExternalEvent out r (some dest) q with
        | none => none
        | some q2 => routePhase cs r ms q2 tr
    else routePhase cs r ms q tr

/-- The transition dispatch of lines 353-361: which `delta` call the event's
type string selects. -/
def transitionCalls (e : Event) (m : Nat) : List MCall :=
  if e.type = "internal" then [MCall.dInt m e.time.r]
  else if e.type = "external" then [MCall.dExt m e.input e.time.r]
  else if e.type = "confluent" then [MCall.dCon m e.input e.time.r]
  else []

/-- The state effect of the dispatched transition (lines 353-361); an event
whose type string matches no branch leaves the state unchanged. -/
def applyTransition (σ : Type) (ops : Nat → SimulationModel σ) (e : Event)
    (m : Nat) (st : σ) : σ :=
  if e.type = "internal" then (ops m).deltaInt e.time.r st
  else if e.type = "external" then (ops m).deltaExt e.input e.time.r st
  else if e.type = "confluent" then (ops m).deltaCon e.input e.time.r st
  else st

/-- The transition loop of `Simulator::simulate` (lines 352-368): dispatch
the matching transition on each imminent event's model, then query
`getNextInternalEvent` and call `scheduleInternalEvent` when it is finite.
Dispatching through a null model pointer is undefined behaviour (`none`). -/
def transitionPhase (σ : Type) (ops : Nat → SimulationModel σ) :
    List Event → (Nat → σ) → List Event →
      Option ((Nat → σ) × List Event × List MCall)
  | [], states, q => some (states, q, [])
  | e :: es, states, q =>
    match e.model with
    | none => none
    | some m =>
      let st2 := applyTransition σ ops e m (states m)
      let states2 : Nat → σ := fun k => if k = m then st2 else states k
      let q2 := match (ops m).getNextInternalEvent st2 with
        | some t => scheduleInternalEvent t (some m) q
        | none => q
      (transitionPhase σ ops es states2 q2).map
        (fun p => (p.1, p.2.1,
          transitionCalls e m ++ (MCall.nextQ m :: p.2.2)))

/-- One iteration of the `while (!queue.isEmpty())` loop of
`Simulator::simulate` after the imminent set `events` has been extracted:
clear outputs, output phase, routing phase, transition phase.  Returns the
model-call log of the step first. -/
def simStep (σ : Type) (ops : Nat → SimulationModel σ)
    (cs : List (Option Nat × Option Nat)) (r : ℚ) (events : List Event)
    (states : Nat → σ) (ms : List (Option Nat × String)) (q : List Event)
    (tr : List (ℚ × String)) :
    Option (List MCall × (Nat → σ) × List (Option Nat × String) ×
      List Event × List (ℚ × String)) :=
  (lambdaPhase σ ops states events (clearOutputs ms)).bind
    (fun lp => (routePhase cs r lp.1 q tr).bind
      (fun rp => (transitionPhase σ ops events states rp.1).map
        (fun tp => (lp.2 ++ tp.2.2, tp.1, lp.1, tp.2.1, rp.2))))

/-- The `while (!queue.isEmpty())` loop of `Simulator::simulate`
(lines 320-369), with a step budget (the C++ loop need not terminate). -/
def simLoop (σ : Type) (ops : Nat → SimulationModel σ)
    (cs : List (Option Nat × Option Nat)) :
    Nat → (Nat → σ) → List (Option Nat × String) → List Event →
      List (ℚ × String) → List MCall → Option (List (ℚ × String) × List MCall)
  | 0, _, _, _, _, _ => none
  | n + 1, states, ms, q, tr, log =>
    if q.isEmpty then some (tr, log)
    else
      match timeAdvance q with
      | none => none
      | some r =>
        match getNextEvents q with
        | none => none
        | some (events, q1) =>
          match simStep σ ops cs r events states ms q1 tr with
          | none => none
          | some (stepLog, states2, ms2, q2, tr2) =>
            simLoop σ ops cs n states2 ms2 q2 tr2 (log ++ stepLog)

/-- `Simulator::addInput(input, r)` (lines 287-289): `inputs[r] = input` on a
`std::map<double, std::string>` kept as a key-sorted association list. -/
def addInput (input : String) (r : ℚ) :
    List (ℚ × String) → List (ℚ × String)
  | [] => [(r, input)]
  | (r2, s) :: t =>
    if r = r2 then (r, input) :: t
    else if r < r2 then (r, input) :: (r2, s) :: t
    else (r2, s) :: addInput input r t

/-- `Simulator::scheduleEvents()` (lines 279-285): look up the entry-point
model (`couplings[nullptr]`, defaulting to the null pointer) and schedule one
external event per input in ascending key order. -/
def scheduleEvents (cs : List (Option Nat × Option Nat))
    (inputs : List (ℚ × String)) (q : List Event) : Option (List Event) :=
  let inputModel := lookupCoupling cs none
  inputs.foldlM (fun qq p => scheduleExternalEvent p.2 p.1 inputModel qq) q

/-- `Simulator::simulate()` (lines 313-372): seed the queue from the input
schedule, then run the main loop.  `order` is the iteration order of the
`models` map (in C++, ascending address order of the registered models). -/
def simulate (σ : Type) (ops : Nat → SimulationModel σ)
    (cs : List (Option Nat × Option Nat)) (inputs : List (ℚ × String))
    (order : List (Option Nat)) (fuel : Nat) (states : Nat → σ) :
    Option (List (ℚ × String) × List MCall) :=
  match scheduleEvents cs inputs [] with
  | none => none
  | some q => simLoop σ ops cs fuel states (order.map (fun m => (m, ""))) q [] []

end DEVS

namespace DEVS

/-- Model behaviours for the order-dependence scenario: a chain
0 → 1 → 2 → 3 with model 3 as exit point.  Each model's state is its pending
next-internal-event time (`none` = infinity), returned by
`getNextInternalEvent` unchanged. -/
def c8ops : Nat → SimulationModel (Option ℚ) :=
  fun m =>
    if m = 0 then
      ⟨fun _ => "p", fun t _ => if t = 4 then some 10 else none,
        fun _ t _ => if t = 2 then some 4 else none, fun _ _ _ => none, id⟩
    else if m = 1 then
      ⟨fun _ => "q", fun _ _ => none,
        fun _ t _ => if t = 4 then some 6 else if t = 10 then some 12 else none,
        fun _ _ _ => none, id⟩
    else if m = 2 then
      ⟨fun _ => "s", fun _ _ => none,
        fun _ t _ => if t = 6 then some 10 else none, fun _ _ _ => none, id⟩
    else
      ⟨fun _ => "T3", fun _ _ => none,
        fun _ t _ => if t = 10 then some 12 else none, fun _ _ _ => none, id⟩

/-- Couplings of the scenario: input → 0 → 1 → 2 → 3 → output. -/
def c8couplings : List (Option Nat × Option Nat) :=
  [(none, some 0), (some 0, some 1), (some 1, some 2), (some 2, some 3),
    (some 3, none)]

/-- Input schedule of the scenario: "a" at t=2, "y" at t=11, "z" at t=200. -/
def c8inputs : List (ℚ × String) :=
  addInput "z" 200 (addInput "y" 11 (addInput "a" 2 []))

/-- A full run of the scenario, parameterised by the iteration order of the
`models` map (the address order of the registered models). -/
def c8run (order : List (Option Nat)) :
    Option (List (ℚ × String) × List MCall) :=
  simulate (Option ℚ) c8ops c8couplings c8inputs order 40 (fun _ => none)

/-- Single model behaviour for the missing-validation scenario: on an input
at t=1 it schedules an internal event at t=2 and then outputs "out". -/
def c6ops : Nat → SimulationModel (Option ℚ) := fun _ =>
  ⟨fun _ => "out", fun _ _ => none,
    fun _ t _ => if t = 1 then some 2 else none, fun _ _ _ => none, id⟩

/-- A run whose configuration never designates an exit point: model 0 is
registered and set as entry point (`couplings[nullptr] = m0`), input "go"
arrives at t=1, and `takeOutputFrom` is never called. -/
def c6run : Option (List (ℚ × String) × List MCall) :=
  simulate (Option ℚ) c6ops [((none : Option Nat), some 0)] (addInput "go" 1 [])
    [some 0] 10 (fun _ => none)

/-- The concrete `simStep` used to witness the output-before-transition
theorem: model 0's internal event at t=2 in the exit-unset scenario. -/
def c7res :
    Option (List MCall × (Nat → Option ℚ) × List (Option Nat × String) ×
      List Event × List (ℚ × String)) :=
  simStep (Option ℚ) c6ops [((none : Option Nat), some 0)] 2
    [mkInternal 2 0 (some 0)] (fun _ => none) [(some 0, "")] [] []

end DEVS

namespace DEVS

/-- C1.  The queue invariant does not survive every `scheduleInternalEvent` /
`scheduleExternalEvent` sequence: from the empty queue, scheduling an internal
event for model 0 at r = 1 and then one for model 1 at r = 1 leaves two
entries that both carry tie-break counter 0 (the `push_back` of line 137 of
the C++ file hard-codes counter 0), so the counters among equal-`r` entries
are not strictly increasing. -/
theorem c1_tiebreak_counters_collide :
    scheduleInternalEvent 1 (some 1) (scheduleInternalEvent 1 (some 0) []) =
      [mkInternal 1 0 (some 0), mkInternal 1 0 (some 1)] ∧
    queueWellFormed [mkInternal 1 0 (some 0), mkInternal 1 0 (some 1)] = false := by
  decide

/-- C2.  The confluent merge does not replace the colliding entry in place:
on the reachable queue
`[Confluent(model 0, r=1, "x"), Internal(model 1, r=1)]`
(built by scheduleInternal(1, m0); scheduleInternal(1, m1);
scheduleExternal("x", 1, m0)), the call scheduleExternal("y", 1, m1)
overwrites slot 0 — model 0's pending event — with model 1's confluent event
(line 202 of the C++ file writes `queue[i]`, not `queue[element]`), leaving
model 1 twice in the queue, model 1's internal entry still pending, and
model 0's event destroyed. -/
theorem c2_confluent_merge_clobbers :
    (scheduleExternalEvent "x" 1 (some 0)
        (scheduleInternalEvent 1 (some 1) (scheduleInternalEvent 1 (some 0) []))).bind
      (scheduleExternalEvent "y" 1 (some 1)) =
      some [⟨"y", ⟨1, 0⟩, some 1, "confluent"⟩, mkInternal 1 0 (some 1)] ∧
    (List.countP (fun e => e.model == some 1)
      [⟨"y", ⟨1, 0⟩, some 1, "confluent"⟩, mkInternal 1 0 (some 1)]) = 2 ∧
    (List.all [⟨"y", ⟨1, 0⟩, some 1, "confluent"⟩, mkInternal 1 0 (some 1)]
      (fun e => e.model != some 0)) = true := by
  decide

/-- C3.  A non-merging insertion does not always get counter
"preceding same-`r` counter + 1": inserting an internal event for model 1 at
r = 1 into the queue `[Internal(model 0, (r=1, c=0))]` (equal-`r` run at the
tail) appends an event with counter 0, not 0 + 1. -/
theorem c3_tail_counter_zero :
    scheduleInternalEvent 1 (some 1) [mkInternal 1 0 (some 0)] =
      [mkInternal 1 0 (some 0), mkInternal 1 0 (some 1)] ∧
    ¬((mkInternal 1 0 (some 1)).time.c = (mkInternal 1 0 (some 0)).time.c + 1) := by
  decide

/-- C9.  `scheduleExternalEvent` is not in-bounds on every invariant-satisfying
queue: on the well-formed singleton queue `[External(model 0, (r=1, c=0))]`,
scheduling an external event for model 1 at the same r walks `element` past
the end (line 212 of the C++ file reads `queue[element]` with
`element == queue.size()`), which the embedding reports as `none`. -/
theorem c9_schedExt_oob :
    queueWellFormed [mkExt "a" 1 0 (some 0)] = true ∧
    scheduleExternalEvent "b" 1 (some 1) [mkExt "a" 1 0 (some 0)] = none := by
  decide

end DEVS

namespace DEVS

/-- If the head of the queue already carries real time `r`, and either
`r` is not the `-1` sentinel or some entry has a different real time, the
extraction loop returns the maximal leading run of `r`-entries and the rest
of the queue. -/
theorem gneLoop_run (r : ℚ) :
    ∀ (rest : List Event) (e : Event) (acc : List Event), e.time.r = r →
      (r ≠ -1 ∨ ∃ x ∈ e :: rest, x.time.r ≠ r) →
      gneLoop r (e :: rest) acc =
        some (acc ++ (e :: rest).takeWhile (fun x => decide (x.time.r = r)),
          (e :: rest).dropWhile (fun x => decide (x.time.r = r))) := by
  intro rest
  induction rest with
  | nil =>
    intro e acc he hyp
    have hr : r ≠ -1 := by
      rcases hyp with h | ⟨x, hx, hne⟩
      · exact h
      · simp only [List.mem_singleton] at hx
        subst hx
        exact absurd he hne
    have hr' : ¬(-1 : ℚ) = r := fun h => hr h.symm
    have hstep : gneLoop r [e] acc =
        if (-1 : ℚ) = r then gneLoop r [] (acc ++ [e]) else some (acc ++ [e], []) := rfl
    rw [hstep, if_neg hr']
    simp [List.takeWhile_cons, List.dropWhile_cons, he]
  | cons e2 t ih =>
    intro e acc he hyp
    have hstep : gneLoop r (e :: e2 :: t) acc =
        if e2.time.r = r then gneLoop r (e2 :: t) (acc ++ [e])
        else some (acc ++ [e], e2 :: t) := rfl
    by_cases h2 : e2.time.r = r
    · have hyp2 : r ≠ -1 ∨ ∃ x ∈ e2 :: t, x.time.r ≠ r := by
        rcases hyp with h | ⟨x, hx, hne⟩
        · exact Or.inl h
        · refine Or.inr ⟨x, ?_, hne⟩
          rcases List.mem_cons.1 hx with rfl | hx2
          · exact absurd he hne
          · exact hx2
      rw [hstep, if_pos h2, ih e2 (acc ++ [e]) h2 hyp2]
      simp [List.takeWhile_cons, List.dropWhile_cons, he, h2, List.append_assoc]
    · rw [hstep, if_neg h2]
      simp [List.takeWhile_cons, List.dropWhile_cons, he, h2]

/-- `chainOrdered` makes the head's real time minimal in the queue. -/
theorem chainOrdered_head_le :
    ∀ (t : List Event) (a : Event), chainOrdered (a :: t) = true →
      ∀ e ∈ t, a.time.r ≤ e.time.r := by
  intro t
  induction t with
  | nil => intro a _ e he; simp at he
  | cons b t2 ih =>
    intro a h e he
    have h' := h
    simp only [chainOrdered, Bool.and_eq_true] at h'
    obtain ⟨h1, h2⟩ := h'
    have hab : a.time.r ≤ b.time.r := by
      simp only [pairOrdered, Bool.or_eq_true, Bool.and_eq_true,
        decide_eq_true_eq] at h1
      rcases h1 with h1 | ⟨h1, _⟩
      · exact le_of_lt h1
      · exact le_of_eq h1
    rcases List.mem_cons.1 he with rfl | he2
    · exact hab
    · exact le_trans hab (ih b h2 e he2)

end DEVS

namespace DEVS

/-- C5 (counterexample).  On the well-formed one-event queue at real time
`-1`, `getNextEvents` does not return the leading minimal-`r` events: its
loop pops the event, sees the `-1.0` empty-queue sentinel equal to `r`, and
re-reads `queue[0]` from the now-empty deque (undefined behaviour, `none`). -/
theorem c5_sentinel_overrun_cex :
    queueWellFormed [mkInternal (-1) 0 (some 0)] = true ∧
    getNextEvents [mkInternal (-1) 0 (some 0)] = none := by
  decide

/-- C5 (amended).  On the empty queue `getNextEvents` returns the empty
imminent set and leaves the queue empty; on any `chainOrdered` queue in which
some event's real time differs from the `-1` sentinel, it removes and
returns exactly the leading run of events sharing the head's real time —
which is minimal in the queue — and leaves the rest in place. -/
theorem c5_getNextEvents_spec :
    getNextEvents ([] : List Event) = some ([], []) ∧
    ∀ (e : Event) (rest : List Event), chainOrdered (e :: rest) = true →
      (∃ x ∈ e :: rest, x.time.r ≠ -1) →
      getNextEvents (e :: rest) =
        some ((e :: rest).takeWhile (fun x => decide (x.time.r = e.time.r)),
          (e :: rest).dropWhile (fun x => decide (x.time.r = e.time.r))) ∧
      ∀ x ∈ e :: rest, e.time.r ≤ x.time.r := by
  constructor
  · rfl
  · intro e rest hord hex
    have hyp : e.time.r ≠ -1 ∨ ∃ x ∈ e :: rest, x.time.r ≠ e.time.r := by
      by_cases hne : e.time.r = -1
      · rcases hex with ⟨x, hx, hxr⟩
        exact Or.inr ⟨x, hx, fun hEq => hxr (hEq.trans hne)⟩
      · exact Or.inl hne
    constructor
    · have hdef : getNextEvents (e :: rest) = gneLoop (e.time.r) (e :: rest) [] := rfl
      rw [hdef, gneLoop_run (e.time.r) rest e [] rfl hyp]
      simp
    · intro x hx
      rcases List.mem_cons.1 hx with rfl | hx2
      · exact le_refl _
      · exact chainOrdered_head_le rest e hord x hx2

/-- C5 (witness): the amended theorem applied to the concrete sorted queue
`[Internal(m0, r=1), Internal(m1, r=2)]`. -/
theorem c5_getNextEvents_spec_witness :
    getNextEvents [mkInternal 1 0 (some 0), mkInternal 2 0 (some 1)] =
      some (([mkInternal 1 0 (some 0), mkInternal 2 0 (some 1)]).takeWhile
          (fun x => decide (x.time.r = (mkInternal 1 0 (some 0)).time.r)),
        ([mkInternal 1 0 (some 0), mkInternal 2 0 (some 1)]).dropWhile
          (fun x => decide (x.time.r = (mkInternal 1 0 (some 0)).time.r))) ∧
      ∀ x ∈ [mkInternal 1 0 (some 0), mkInternal 2 0 (some 1)],
        (mkInternal 1 0 (some 0)).time.r ≤ x.time.r :=
  c5_getNextEvents_spec.2 (mkInternal 1 0 (some 0)) [mkInternal 2 0 (some 1)]
    (by decide) (by decide)

end DEVS

namespace DEVS

/-- Entries already in the trace survive the rest of the routing loop. -/
theorem routePhase_trace_mono (cs : List (Option Nat × Option Nat)) (r : ℚ) :
    ∀ (ms : List (Option Nat × String)) (q : List Event)
      (tr : List (ℚ × String)) (q2 : List Event) (tr2 : List (ℚ × String)),
      routePhase cs r ms q tr = some (q2, tr2) → ∀ x ∈ tr, x ∈ tr2 := by
  intro ms
  induction ms with
  | nil =>
    intro q tr q2 tr2 h x hx
    simp only [routePhase, Option.some.injEq, Prod.mk.injEq] at h
    rw [← h.2]
    exact hx
  | cons p ms2 ih =>
    obtain ⟨m, out⟩ := p
    intro q tr q2 tr2 h x hx
    unfold routePhase at h
    by_cases ho : out = ""
    · rw [if_neg (by simp [ho])] at h
      exact ih q tr q2 tr2 h x hx
    · rw [if_pos ho] at h
      cases hlc : lookupCoupling cs m with
      | none =>
        simp only [hlc] at h
        exact ih q (tr ++ [(r, out)]) q2 tr2 h x (List.mem_append_left _ hx)
      | some dest =>
        simp only [hlc] at h
        cases hse : scheduleExternalEvent out r (some dest) q with
        | none => exact Option.noConfusion (hse ▸ h)
        | some qq =>
          simp only [hse] at h
          exact ih qq tr q2 tr2 h x hx

/-- C4 (amended).  In the routing loop, a model with a non-empty recorded
output whose coupling lookup yields the null pointer — because the model was
explicitly coupled to the output sentinel, or because `couplings[model]`
default-inserts the null pointer for a model with no coupling entry at all —
has its output appended to the trace, not dropped. -/
theorem c4_uncoupled_output_to_trace (cs : List (Option Nat × Option Nat))
    (r : ℚ) :
    ∀ (ms : List (Option Nat × String)) (q : List Event)
      (tr : List (ℚ × String)) (q2 : List Event) (tr2 : List (ℚ × String))
      (m : Option Nat) (out : String),
      routePhase cs r ms q tr = some (q2, tr2) →
      (m, out) ∈ ms → out ≠ "" → lookupCoupling cs m = none →
      (r, out) ∈ tr2 := by
  intro ms
  induction ms with
  | nil => intro q tr q2 tr2 m out _ hmem; simp at hmem
  | cons p ms2 ih =>
    obtain ⟨m1, out1⟩ := p
    intro q tr q2 tr2 m out h hmem hne hlk
    rcases List.mem_cons.1 hmem with heq | hmem2
    · obtain ⟨rfl, rfl⟩ := Prod.mk.inj heq
      unfold routePhase at h
      rw [if_pos hne] at h
      simp only [hlk] at h
      exact routePhase_trace_mono cs r ms2 q (tr ++ [(r, out)]) q2 tr2 h (r, out)
        (List.mem_append_right _ (List.mem_singleton.2 rfl))
    · unfold routePhase at h
      by_cases ho : out1 = ""
      · rw [if_neg (by simp [ho])] at h
        exact ih q tr q2 tr2 m out h hmem2 hne hlk
      · rw [if_pos ho] at h
        cases hlc : lookupCoupling cs m1 with
        | none =>
          simp only [hlc] at h
          exact ih q (tr ++ [(r, out1)]) q2 tr2 m out h hmem2 hne hlk
        | some dest =>
          simp only [hlc] at h
          cases hse : scheduleExternalEvent out1 r (some dest) q with
          | none => exact Option.noConfusion (hse ▸ h)
          | some qq =>
            simp only [hse] at h
            exact ih qq tr q2 tr2 m out h hmem2 hne hlk

/-- C4 (witness): model 0 has output "x", no coupling entry exists for it,
and the routing loop puts (1, "x") in the trace it returns. -/
theorem c4_uncoupled_output_to_trace_witness :
    ((1 : ℚ), "x") ∈ [((1 : ℚ), "x")] :=
  c4_uncoupled_output_to_trace [] 1 [(some 0, "x")] [] [] [] [((1 : ℚ), "x")]
    (some 0) "x" (by decide) (by decide) (by decide) (by decide)

/-- C4 (counterexample).  A model that is neither coupled to a downstream
model nor designated as the exit point (the coupling table is empty) does
not have its non-empty output silently dropped: the routing loop appends it
to the trace, because `couplings[model]` default-inserts the null output
sentinel, which is exactly the exit-point test of line 341. -/
theorem c4_uncoupled_output_traced_cex :
    routePhase [] 1 [(some 0, "x")] [] [] = some ([], [(1, "x")]) ∧
    ([(1, "x")] : List (ℚ × String)) ≠ [] := by
  decide

end DEVS

namespace DEVS

/-- The output loop's call log is exactly one `lambda` call per non-external
imminent event, in queue order. -/
theorem lambdaPhase_log (σ : Type) (ops : Nat → SimulationModel σ)
    (states : Nat → σ) :
    ∀ (events : List Event) (ms : List (Option Nat × String))
      (res : List (Option Nat × String) × List MCall),
      lambdaPhase σ ops states events ms = some res →
      res.2 = (events.filter (fun e => e.type ≠ "external")).map
        (fun e => MCall.lam (e.model.getD 0)) := by
  intro events
  induction events with
  | nil =>
    intro ms res h
    simp only [lambdaPhase, Option.some.injEq] at h
    rw [← h]
    simp
  | cons e es ih =>
    intro ms res h
    unfold lambdaPhase at h
    by_cases ht : e.type = "external"
    · rw [if_neg (by simp [ht])] at h
      rw [ih ms res h]
      simp [List.filter_cons, ht]
    · rw [if_pos ht] at h
      cases hm : e.model with
      | none => exact Option.noConfusion (hm ▸ h)
      | some m =>
        simp only [hm] at h
        rw [Option.map_eq_some'] at h
        obtain ⟨p, hp, hres⟩ := h
        rw [← hres]
        have htail := ih _ p hp
        simp [List.filter_cons, ht, hm, htail]

/-- No transition-dispatch call is a `lambda` call. -/
theorem transitionCalls_not_lam (e : Event) (m : Nat) :
    ∀ c ∈ transitionCalls e m, c.isLam = false := by
  intro c hc
  unfold transitionCalls at hc
  split_ifs at hc <;> simp_all [MCall.isLam]

/-- The transition loop never invokes a model's output function. -/
theorem transitionPhase_log (σ : Type) (ops : Nat → SimulationModel σ) :
    ∀ (events : List Event) (states : Nat → σ) (q : List Event)
      (res : (Nat → σ) × List Event × List MCall),
      transitionPhase σ ops events states q = some res →
      ∀ c ∈ res.2.2, c.isLam = false := by
  intro events
  induction events with
  | nil =>
    intro states q res h
    simp only [transitionPhase, Option.some.injEq] at h
    rw [← h]
    intro c hc
    simp at hc
  | cons e es ih =>
    intro states q res h
    unfold transitionPhase at h
    cases hm : e.model with
    | none => exact Option.noConfusion (hm ▸ h)
    | some m =>
      simp only [hm] at h
      rw [Option.map_eq_some'] at h
      obtain ⟨p, hp, hres⟩ := h
      rw [← hres]
      intro c hc
      simp only [List.mem_append, List.mem_cons] at hc
      rcases hc with hc | hc | hc
      · exact transitionCalls_not_lam e m c hc
      · rw [hc]; rfl
      · exact ih _ _ p hp c hc

/-- C7.  In every simulation step that completes, the step's model-call log
starts with exactly one `lambda` call per imminent event of kind Internal or
Confluent (none for External events), in queue order, and everything after
that prefix — the transition dispatches and reschedule queries — contains no
`lambda` call: every output computation strictly precedes every transition
of the step. -/
theorem c7_output_before_transitions (σ : Type) (ops : Nat → SimulationModel σ)
    (cs : List (Option Nat × Option Nat)) (r : ℚ) (events : List Event)
    (states : Nat → σ) (ms : List (Option Nat × String)) (q : List Event)
    (tr : List (ℚ × String))
    (res : List MCall × (Nat → σ) × List (Option Nat × String) ×
      List Event × List (ℚ × String))
    (h : simStep σ ops cs r events states ms q tr = some res) :
    ∃ post, res.1 = ((events.filter (fun e => e.type ≠ "external")).map
        (fun e => MCall.lam (e.model.getD 0))) ++ post ∧
      ∀ c ∈ post, c.isLam = false := by
  unfold simStep at h
  rw [Option.bind_eq_some] at h
  obtain ⟨lp, hlp, h⟩ := h
  rw [Option.bind_eq_some] at h
  obtain ⟨rp, hrp, h⟩ := h
  rw [Option.map_eq_some'] at h
  obtain ⟨tp, htp, hres⟩ := h
  refine ⟨tp.2.2, ?_, fun c hc => transitionPhase_log σ ops events states rp.1 tp htp c hc⟩
  rw [← hres]
  show lp.2 ++ tp.2.2 = _
  rw [lambdaPhase_log σ ops states events (clearOutputs ms) lp hlp]

/-- C7 (witness): the theorem applied to model 0's internal event at t=2. -/
theorem c7_output_before_transitions_witness :
    ∃ post, (c7res.map Prod.fst).getD [] =
        (([mkInternal 2 0 (some 0)].filter (fun e => e.type ≠ "external")).map
          (fun e => MCall.lam (e.model.getD 0))) ++ post ∧
      ∀ c ∈ post, c.isLam = false := by
  obtain ⟨post, h1, h2⟩ := c7_output_before_transitions (Option ℚ) c6ops
    [((none : Option Nat), some 0)] 2 [mkInternal 2 0 (some 0)] (fun _ => none)
    [(some 0, "")] [] [] _ rfl
  exact ⟨post, h1, h2⟩

/-- C6 (counterexample).  The exit point of `c6run`'s configuration is never
set, yet the run neither fails nor aborts with an empty trace: validation of
the configuration does not exist. -/
theorem c6_no_abort_cex :
    c6run ≠ none ∧ c6run.map Prod.fst ≠ some ([] : List (ℚ × String)) := by
  decide

/-- C6 (amended).  With the exit point unset (no `takeOutputFrom` call ever
made), the run proceeds normally: the external and internal transitions of
model 0 are invoked and the model's t=2 output is routed to the trace through
the default-inserted null coupling, producing the record (2, "out"). -/
theorem c6_exit_unset_run_completes :
    c6run = some ([(2, "out")],
      [MCall.dExt 0 "go" 1, MCall.nextQ 0, MCall.lam 0,
        MCall.dInt 0 2, MCall.nextQ 0]) := by
  decide

/-- C8.  Two runs of identical configuration (same models, same couplings,
same entry and exit designations, same inputs, same budget, same initial
states) whose `models` maps iterate in different (permuted) address orders
produce different traces: with order 0,1,2,3 the trace is empty, with the
reversed order it contains (12, "T3"). -/
theorem c8_model_order_changes_trace :
    List.Perm [some 3, some 2, some 1, some 0]
      [some 0, some 1, some 2, some 3] ∧
    (c8run [some 0, some 1, some 2, some 3]).map Prod.fst = some [] ∧
    (c8run [some 3, some 2, some 1, some 0]).map Prod.fst =
      some [(12, "T3")] := by
  decide

end DEVS

namespace DEVS

/-- `inputs[r] = b` after `inputs[r] = a` keeps only the later payload. -/
theorem addInput_override :
    ∀ (m : List (ℚ × String)) (a b : String) (r : ℚ),
      addInput b r (addInput a r m) = addInput b r m := by
  intro m
  induction m with
  | nil => intro a b r; simp [addInput]
  | cons p t ih =>
    obtain ⟨r2, s⟩ := p
    intro a b r
    by_cases h1 : r = r2
    · simp [addInput, h1]
    · by_cases h2 : r < r2
      · simp [addInput, h1, h2]
      · simp [addInput, h1, h2, ih]

/-- Every entry of `addInput a r m` is the new pair or one of `m`. -/
theorem addInput_mem :
    ∀ (m : List (ℚ × String)) (a : String) (r : ℚ) (x : ℚ × String),
      x ∈ addInput a r m → x = (r, a) ∨ x ∈ m := by
  intro m
  induction m with
  | nil => intro a r x hx; simp [addInput] at hx; exact Or.inl hx
  | cons p t ih =>
    obtain ⟨r2, s⟩ := p
    intro a r x hx
    unfold addInput at hx
    by_cases h1 : r = r2
    · rw [if_pos h1] at hx
      rcases List.mem_cons.1 hx with hx | hx
      · exact Or.inl hx
      · exact Or.inr (List.mem_cons_of_mem _ hx)
    · rw [if_neg h1] at hx
      by_cases h2 : r < r2
      · rw [if_pos h2] at hx
        rcases List.mem_cons.1 hx with hx | hx
        · exact Or.inl hx
        · exact Or.inr hx
      · rw [if_neg h2] at hx
        rcases List.mem_cons.1 hx with hx | hx
        · exact Or.inr (hx ▸ List.mem_cons_self _ _)
        · rcases ih a r x hx with hx2 | hx2
          · exact Or.inl hx2
          · exact Or.inr (List.mem_cons_of_mem _ hx2)

/-- `addInput` keeps the input schedule sorted with strictly increasing
keys (the `std::map` invariant). -/
theorem addInput_sorted :
    ∀ (m : List (ℚ × String)) (a : String) (r : ℚ),
      m.Pairwise (fun x y => x.1 < y.1) →
      (addInput a r m).Pairwise (fun x y => x.1 < y.1) := by
  intro m
  induction m with
  | nil => intro a r _; simp [addInput]
  | cons p t ih =>
    obtain ⟨r2, s⟩ := p
    intro a r h
    obtain ⟨h1, h2⟩ := List.pairwise_cons.1 h
    unfold addInput
    by_cases hc1 : r = r2
    · rw [if_pos hc1]
      exact List.pairwise_cons.2 ⟨fun y hy => hc1 ▸ h1 y hy, h2⟩
    · rw [if_neg hc1]
      by_cases hc2 : r < r2
      · rw [if_pos hc2]
        refine List.pairwise_cons.2 ⟨?_, h⟩
        intro y hy
        rcases List.mem_cons.1 hy with rfl | hy2
        · exact hc2
        · exact lt_trans hc2 (h1 y hy2)
      · rw [if_neg hc2]
        refine List.pairwise_cons.2 ⟨?_, ih a r h2⟩
        intro y hy
        rcases addInput_mem t a r y hy with rfl | hy2
        · exact lt_of_le_of_ne (le_of_not_lt hc2) (fun e => hc1 e.symm)
        · exact h1 y hy2

/-- Scheduling an external event at a real time strictly greater than every
queued event's real time appends it with tie-break counter 0 (the scan runs
off the end into the `push_back`). -/
theorem schedExtScan_all_lt (q : List Event) (input : String) (r : ℚ)
    (model : Option Nat) :
    ∀ (k i : Nat), (∀ e ∈ q, e.time.r < r) →
      schedExtScan input r model q i k = some (q ++ [mkExt input r 0 model]) := by
  intro k
  induction k with
  | zero => intro i _; rfl
  | succ k ih =>
    intro i h
    by_cases hi : i < q.length
    · have he : q.getD i default ∈ q := by
        rw [List.getD_eq_getElem q default hi]
        exact List.getElem_mem hi
      have hlt := h _ he
      conv_lhs => rw [schedExtScan]
      rw [if_pos hi]
      dsimp only
      rw [if_neg (ne_of_lt hlt), if_neg (lt_asymm hlt)]
      exact ih (i + 1) h
    · unfold schedExtScan
      rw [if_neg hi]

/-- Seeding the queue from a key-sorted input schedule whose keys exceed
every queued real time appends one external event per input, in order. -/
theorem scheduleEvents_seeds :
    ∀ (inputs : List (ℚ × String)) (entry : Option Nat) (q : List Event),
      inputs.Pairwise (fun x y => x.1 < y.1) →
      (∀ e ∈ q, ∀ p ∈ inputs, e.time.r < p.1) →
      List.foldlM (fun qq p => scheduleExternalEvent p.2 p.1 entry qq) q inputs =
        some (q ++ inputs.map (fun p => mkExt p.2 p.1 0 entry)) := by
  intro inputs
  induction inputs with
  | nil => intro entry q _ _; simp
  | cons p t ih =>
    intro entry q hs hq
    obtain ⟨hs1, hs2⟩ := List.pairwise_cons.1 hs
    rw [List.foldlM_cons]
    have h1 : scheduleExternalEvent p.2 p.1 entry q =
        some (q ++ [mkExt p.2 p.1 0 entry]) := by
      unfold scheduleExternalEvent
      exact schedExtScan_all_lt q p.2 p.1 entry (q.length + 1) 0
        (fun e he => hq e he p (List.mem_cons_self p t))
    rw [h1]
    have hbound : ∀ e ∈ q ++ [mkExt p.2 p.1 0 entry], ∀ x ∈ t, e.time.r < x.1 := by
      intro e he x hx
      rcases List.mem_append.1 he with he | he
      · exact hq e he x (List.mem_cons_of_mem p hx)
      · rw [List.mem_singleton.1 he]
        exact hs1 x hx
    have h2 := ih entry (q ++ [mkExt p.2 p.1 0 entry]) hs2 hbound
    have hr : (q ++ [mkExt p.2 p.1 0 entry]) ++
        t.map (fun x => mkExt x.2 x.1 0 entry) =
        q ++ (p :: t).map (fun x => mkExt x.2 x.1 0 entry) := by
      simp [List.append_assoc]
    exact h2.trans (congrArg some hr)

/-- C10.  The input schedule is a time-keyed map: a second `addInput` at the
same time keeps only the later payload; `addInput` preserves the map's
strictly-increasing key order; and at run start `scheduleEvents` seeds the
(empty) queue with exactly one External event per distinct input time, in
ascending time order, each carrying that time's stored payload and targeting
the entry-point model. -/
theorem c10_input_map_seeding :
    (∀ (m : List (ℚ × String)) (a b : String) (r : ℚ),
        addInput b r (addInput a r m) = addInput b r m) ∧
    (∀ (m : List (ℚ × String)) (a : String) (r : ℚ),
        m.Pairwise (fun x y => x.1 < y.1) →
        (addInput a r m).Pairwise (fun x y => x.1 < y.1)) ∧
    (∀ (m : List (ℚ × String)) (cs : List (Option Nat × Option Nat)),
        m.Pairwise (fun x y => x.1 < y.1) →
        scheduleEvents cs m [] =
          some (m.map (fun p => mkExt p.2 p.1 0 (lookupCoupling cs none)))) := by
  refine ⟨addInput_override, addInput_sorted, ?_⟩
  intro m cs hs
  have h3 := scheduleEvents_seeds m (lookupCoupling cs none) [] hs (by simp)
  exact h3

/-- C10 (witness): the seeding part applied to the schedule built by
`addInput`: inputs "x" at t=1 then "y" at t=2, re-adding "x2" at t=1. -/
theorem c10_input_map_seeding_witness :
    (addInput "x2" 1 (addInput "y" 2 (addInput "x" 1 []))).Pairwise
      (fun x y => x.1 < y.1) ∧
    scheduleEvents [] (addInput "x2" 1 (addInput "y" 2 (addInput "x" 1 []))) [] =
      some ((addInput "x2" 1 (addInput "y" 2 (addInput "x" 1 []))).map
        (fun p => mkExt p.2 p.1 0 (lookupCoupling [] none))) :=
  ⟨by decide,
    c10_input_map_seeding.2.2 (addInput "x2" 1 (addInput "y" 2 (addInput "x" 1 [])))
      [] (by decide)⟩

end DEVS
